import Mathlib

/-!
Shallow embedding of the BadgerDB buffer manager (`src/bufmgr/src/buffer.cpp`)
and proofs about its operations: the clock replacement algorithm (`allocBuf`),
page fetch (`readPage`), unpinning (`unPinPage`), file flushing (`flushFile`),
page allocation (`allocPage`) and disposal (`disposePage`).

Machine state is modelled explicitly: the frame descriptor table, the page
pool, the page index (hash table), the clock hand, the durable page store and
a per-file fresh-page counter.  C++ exceptions are modelled by an `Outcome`
type that carries the error, the state at the moment of the throw (object
state persists across a C++ throw) and the trace of `writePage` calls made.
-/

namespace BadgerDB

abbrev FileId := Nat
abbrev PageId := Nat
abbrev FrameId := Nat

/-- A page: its on-disk page number plus (opaque, here one number) content. -/
structure Page where
  page_number : PageId
  data : Nat
deriving DecidableEq

/-- The page used to fill fresh pool slots. -/
def emptyPage : Page := { page_number := 0, data := 0 }

/-- One frame descriptor of `bufDescTable` (buffer.h's `BufDesc`). -/
structure BufDesc where
  frameNo : FrameId
  valid : Bool
  refbit : Bool
  pinCnt : Nat
  dirty : Bool
  file : Option FileId
  pageNo : PageId
deriving DecidableEq

/-- Modelled from the spec: `BufDesc::Clear` is declared in buffer.h, which is
not part of the sources; §3/§4.2 of the spec define clearing as the reset to
the born state: `valid=false`, `refbit=false`, `pinCnt=0`, `dirty=false`,
owner reset, page id reset.  The frame number is untouched. -/
def BufDesc.Clear (d : BufDesc) : BufDesc :=
  { frameNo := d.frameNo, valid := false, refbit := false, pinCnt := 0,
    dirty := false, file := none, pageNo := 0 }

/-- Modelled from the spec: `BufDesc::Set` is declared in buffer.h, which is
not part of the sources; §3/§4.2 of the spec define the `Set` transition as
assigning the owner and page id with `pinCnt=1`, `refbit=true`, `dirty=false`
and the frame becoming valid. -/
def BufDesc.Set (d : BufDesc) (f : FileId) (p : PageId) : BufDesc :=
  { frameNo := d.frameNo, valid := true, refbit := true, pinCnt := 1,
    dirty := false, file := some f, pageNo := p }

/-- The state a descriptor is born in (`BufMgr::BufMgr` sets `frameNo := i`
and `valid := false`; the remaining fields are the cleared ones). -/
def bornDesc (i : FrameId) : BufDesc :=
  { frameNo := i, valid := false, refbit := false, pinCnt := 0,
    dirty := false, file := none, pageNo := 0 }

/-- `refbit = false`, all else untouched (the second-chance step). -/
def BufDesc.clearRef (d : BufDesc) : BufDesc :=
  { frameNo := d.frameNo, valid := d.valid, refbit := false, pinCnt := d.pinCnt,
    dirty := d.dirty, file := d.file, pageNo := d.pageNo }

/-- `dirty = false`, all else untouched (after a write-back). -/
def BufDesc.clearDirty (d : BufDesc) : BufDesc :=
  { frameNo := d.frameNo, valid := d.valid, refbit := d.refbit, pinCnt := d.pinCnt,
    dirty := false, file := d.file, pageNo := d.pageNo }

/-- `refbit = true`, `pinCnt + 1`, all else untouched (an index hit in
`readPage`). -/
def BufDesc.reRef (d : BufDesc) : BufDesc :=
  { frameNo := d.frameNo, valid := d.valid, refbit := true, pinCnt := d.pinCnt + 1,
    dirty := d.dirty, file := d.file, pageNo := d.pageNo }

/-- `pinCnt - 1` and `dirty` forced when asked, all else untouched (a
successful `unPinPage`). -/
def BufDesc.unpin (d : BufDesc) (markDirty : Bool) : BufDesc :=
  { frameNo := d.frameNo, valid := d.valid, refbit := d.refbit, pinCnt := d.pinCnt - 1,
    dirty := d.dirty || markDirty, file := d.file, pageNo := d.pageNo }

/-- Total list read with an explicit default (array indexing). -/
def listGetD {α : Type} : List α → Nat → α → α
  | [], _, d => d
  | a :: _, 0, _ => a
  | _ :: l, n+1, d => listGetD l n d

/-- In-place list update (array assignment); out of range is a no-op. -/
def listSet {α : Type} : List α → Nat → α → List α
  | [], _, _ => []
  | _ :: l, 0, b => b :: l
  | a :: l, n+1, b => a :: listSet l n b

/-- Key of the buffer hash table: the owning `File*` (null allowed) and the
page number. -/
abbrev HKey := Option FileId × PageId

/-- Keys of the durable store: a file and a page number. -/
abbrev SKey := Option FileId × PageId

/-- The errors (C++ exception classes) surfacing from the buffer manager. -/
inductive BufError where
  | bufferExceeded
  | pageNotPinned
  | pagePinned
  | badBuffer
  | invalidPage
  | hashAlreadyPresent
deriving DecidableEq

/-- A `writePage` call observed on the store: the file written through and
the page content handed to it. -/
abbrev WriteEv := Option FileId × Page

/-- The full mutable state of a `BufMgr` object plus its environment (the
durable store behind the `File` objects and their fresh-page counters). -/
structure BufState where
  numBufs : Nat
  bufDescTable : List BufDesc
  bufPool : List Page
  hashTable : List (HKey × FrameId)
  clockHand : Nat
  store : List (SKey × Page)
  nextPage : List (FileId × Nat)
deriving DecidableEq

/-- Result of one buffer-manager operation: normal return, a thrown
exception (with the object state at the throw), or fuel exhaustion of the
embedding (never reached by the actual calls, see `allocBufLoop_fueled`). -/
inductive Outcome (α : Type) where
  | ok (val : α) (s : BufState) (writes : List WriteEv)
  | err (e : BufError) (s : BufState) (writes : List WriteEv)
  | outOfFuel
deriving DecidableEq

/-- Prepend earlier write events to an outcome's trace. -/
def Outcome.addWrites {α : Type} (w : List WriteEv) : Outcome α → Outcome α
  | .ok a s ws => .ok a s (w ++ ws)
  | .err e s ws => .err e s (w ++ ws)
  | .outOfFuel => .outOfFuel

/-- The state an outcome left behind, if the operation ran to a return or a
throw. -/
def Outcome.state? {α : Type} : Outcome α → Option BufState
  | .ok _ s _ => some s
  | .err _ s _ => some s
  | .outOfFuel => none

/-- Descriptor of frame `i` (`bufDescTable[i]`). -/
def descAt (s : BufState) (i : Nat) : BufDesc := listGetD s.bufDescTable i (bornDesc 0)

/-- Pool content of frame `i` (`bufPool[i]`). -/
def poolAt (s : BufState) (i : Nat) : Page := listGetD s.bufPool i emptyPage

/-- Overwrite descriptor `i`. -/
def setDesc (s : BufState) (i : Nat) (d : BufDesc) : BufState :=
  { s with bufDescTable := listSet s.bufDescTable i d }

/-- Overwrite pool slot `i`. -/
def setPool (s : BufState) (i : Nat) (pg : Page) : BufState :=
  { s with bufPool := listSet s.bufPool i pg }

/-- Replace the hash table. -/
def setHt (s : BufState) (ht : List (HKey × FrameId)) : BufState :=
  { s with hashTable := ht }

/-- `BufMgr::advanceClock`: move the clock hand one slot, wrapping. -/
def advanceClock (s : BufState) : BufState :=
  { s with clockHand := (s.clockHand + 1) % s.numBufs }

/-- Modelled from the spec: `BufHashTbl::lookup` lives in a source file that
is not part of the sources; §4.1 specifies lookup-or-miss on the unique key.
A miss is the `HashNotFoundException` of the callers. -/
def htLookup : List (HKey × FrameId) → HKey → Option FrameId
  | [], _ => none
  | e :: t, k => if e.1 = k then some e.2 else htLookup t k

/-- Modelled from the spec: `BufHashTbl::remove` lives in a source file that
is not part of the sources; §4.1 specifies a no-op-safe delete of the key. -/
def htRemove : List (HKey × FrameId) → HKey → List (HKey × FrameId)
  | [], _ => []
  | e :: t, k => if e.1 = k then htRemove t k else e :: htRemove t k

/-- Modelled from the spec: `BufHashTbl::insert` lives in a source file that
is not part of the sources; §4.1 specifies unique-key insert failing with a
duplicate-key error when the key already maps to a different frame. -/
def htInsert (ht : List (HKey × FrameId)) (k : HKey) (fr : FrameId) :
    Except BufError (List (HKey × FrameId)) :=
  match htLookup ht k with
  | none => .ok ((k, fr) :: ht)
  | some fr' => if fr' = fr then .ok ht else .error .hashAlreadyPresent

/-- Modelled from the spec: `File::readPage` of the page store (§6), not part
of the sources; returns the durable content of the page or fails. -/
def storeLookup : List (SKey × Page) → SKey → Option Page
  | [], _ => none
  | e :: t, k => if e.1 = k then some e.2 else storeLookup t k

/-- Remove every entry of a store key (helper for `storeDelete`). -/
def storeErase : List (SKey × Page) → SKey → List (SKey × Page)
  | [], _ => []
  | e :: t, k => if e.1 = k then storeErase t k else e :: storeErase t k

/-- Modelled from the spec: `File::deletePage` of the page store (§6), not
part of the sources; fails when the identity is invalid. -/
def storeDelete (st : List (SKey × Page)) (k : SKey) : Option (List (SKey × Page)) :=
  match storeLookup st k with
  | none => none
  | some _ => some (storeErase st k)

/-- Modelled from the spec: `File::writePage` of the page store (§6), not
part of the sources; the content carries its own page identity. -/
def doWritePage (s : BufState) (owner : Option FileId) (pg : Page) : BufState :=
  { s with store := ((owner, pg.page_number), pg) :: s.store }

/-- Current fresh-page counter of a file. -/
def natLookup : List (FileId × Nat) → FileId → Nat
  | [], _ => 0
  | e :: t, k => if e.1 = k then e.2 else natLookup t k

/-- Bump a file's fresh-page counter. -/
def natPut (l : List (FileId × Nat)) (k v : Nat) : List (FileId × Nat) := (k, v) :: l

/-- The clock sweep of `BufMgr::allocBuf` (the `while (valid)` loop), with
fuel for the recursion.  Each iteration examines `bufDescTable[clockHand]`:
an invalid frame is taken at once; a set refbit is cleared (second chance);
a pinned frame bumps the pinned tally, throwing `BufferExceededException`
when the tally reaches `numBufs`; otherwise the frame is the victim — if
dirty its content is written back through its file and the dirty bit
cleared, then its hash entry is removed and its descriptor cleared. -/
def allocBufLoop : Nat → BufState → Nat → Outcome FrameId
  | 0, _, _ => .outOfFuel
  | fuel+1, s, numPinned =>
    let d := descAt s s.clockHand
    if d.valid then
      if d.refbit then
        allocBufLoop fuel (advanceClock (setDesc s s.clockHand d.clearRef)) numPinned
      else if 0 < d.pinCnt then
        if numPinned + 1 = s.numBufs then .err .bufferExceeded s []
        else allocBufLoop fuel (advanceClock s) (numPinned + 1)
      else
        let s1 := if d.dirty
          then setDesc (doWritePage s d.file (poolAt s s.clockHand)) s.clockHand d.clearDirty
          else s
        let s2 := setHt s1 (htRemove s1.hashTable (d.file, d.pageNo))
        .ok s.clockHand (setDesc s2 s.clockHand d.Clear)
          (if d.dirty then [(d.file, poolAt s s.clockHand)] else [])
    else
      .ok s.clockHand (setDesc s s.clockHand d.Clear) []

/-- `BufMgr::allocBuf`: advance the hand once, then run the sweep.  The fuel
`numBufs + |table| + 1` is shown sufficient in `allocBufLoop_fueled`. -/
def allocBuf (s : BufState) : Outcome FrameId :=
  allocBufLoop (s.numBufs + s.bufDescTable.length + 1) (advanceClock s) 0

/-- `BufMgr::readPage`.  On an index hit the frame is re-referenced and
pinned once more.  On a miss a frame is obtained from `allocBuf` — a
`BufferExceededException` from it is caught and silently swallowed (the
"PANIC" comment), modelled as `.ok none` — the page is read from the store
(a store failure propagates), copied into the pool, inserted into the hash
table and the descriptor `Set`. -/
def readPage (s : BufState) (f : FileId) (p : PageId) : Outcome (Option FrameId) :=
  match htLookup s.hashTable (some f, p) with
  | some frameNo =>
      .ok (some frameNo) (setDesc s frameNo (descAt s frameNo).reRef) []
  | none =>
    match allocBuf s with
    | .outOfFuel => .outOfFuel
    | .err e s1 ws => if e = .bufferExceeded then .ok none s1 ws else .err e s1 ws
    | .ok frameNo s1 ws =>
      match storeLookup s1.store (some f, p) with
      | none => .err .invalidPage s1 ws
      | some pg =>
        let s2 := setPool s1 frameNo pg
        match htInsert s2.hashTable (some f, p) frameNo with
        | .error e => .err e s2 ws
        | .ok ht2 =>
          let s3 := setHt s2 ht2
          .ok (some frameNo) (setDesc s3 frameNo ((descAt s3 frameNo).Set f p)) ws

/-- `BufMgr::unPinPage`.  An index miss is silently swallowed (the "PANIC"
comment).  On a hit, a zero pin count throws `PageNotPinnedException`;
otherwise the pin count is decremented and the dirty bit set when asked. -/
def unPinPage (s : BufState) (f : FileId) (p : PageId) (dirty : Bool) : Outcome Unit :=
  match htLookup s.hashTable (some f, p) with
  | none => .ok () s []
  | some frameNo =>
    if (descAt s frameNo).pinCnt = 0 then .err .pageNotPinned s []
    else .ok () (setDesc s frameNo ((descAt s frameNo).unpin dirty)) []

/-- The write trace `flushFile` produces from frame `i` on for `k` frames:
one event per frame owned by `f` that is dirty, in frame order. -/
def flushWrites (f : FileId) : Nat → Nat → BufState → List WriteEv
  | 0, _, _ => []
  | k+1, i, s =>
    (if (descAt s i).file = some f ∧ (descAt s i).dirty
      then [((some f : Option FileId), poolAt s i)] else [])
      ++ flushWrites f k (i+1) s

/-- Flushing one owned, valid, unpinned frame in `BufMgr::flushFile`: write
back if dirty (clearing the dirty bit), remove the hash entry, clear the
descriptor. -/
def flushOne (f : FileId) (i : Nat) (s : BufState) : BufState :=
  let d := descAt s i
  let s1 := if d.dirty
    then setDesc (doWritePage s d.file (poolAt s i)) i d.clearDirty
    else s
  let s2 := setHt s1 (htRemove s1.hashTable (some f, d.pageNo))
  setDesc s2 i ((descAt s2 i).Clear)

/-- The frame loop of `BufMgr::flushFile`, processing `k` frames starting at
index `i`.  A frame owned by `file` that is invalid throws
`BadBufferException`; one still pinned throws `PagePinnedException`;
otherwise it is flushed (`flushOne`). -/
def flushFrom (f : FileId) : Nat → Nat → BufState → Outcome Unit
  | 0, _, s => .ok () s []
  | k+1, i, s =>
    let d := descAt s i
    if d.file = some f then
      if d.valid = false then .err .badBuffer s []
      else if 0 < d.pinCnt then .err .pagePinned s []
      else
        (flushFrom f k (i+1) (flushOne f i s)).addWrites
          (if d.dirty then [(d.file, poolAt s i)] else [])
    else flushFrom f k (i+1) s

/-- `BufMgr::flushFile`: run the frame loop over the whole pool. -/
def flushFile (s : BufState) (f : FileId) : Outcome Unit :=
  flushFrom f s.numBufs 0 s

/-- The effect of `file->allocatePage()` in `BufMgr::allocPage`: a fresh
page id is handed out, the fresh (empty) page is materialized durably and
the file's fresh-page counter advances. -/
def allocStage (s : BufState) (f : FileId) : BufState :=
  { numBufs := s.numBufs, bufDescTable := s.bufDescTable, bufPool := s.bufPool,
    hashTable := s.hashTable, clockHand := s.clockHand,
    store := ((some f, natLookup s.nextPage f),
      ({ page_number := natLookup s.nextPage f, data := 0 } : Page)) :: s.store,
    nextPage := natPut s.nextPage f (natLookup s.nextPage f + 1) }

/-- `BufMgr::allocPage`: allocate fresh durable storage (fresh page id from
the file), obtain a frame from `allocBuf` (its exception propagates —
`allocPage` has no catch), insert the new key into the hash table, copy the
new page into the pool and `Set` the descriptor. -/
def allocPage (s : BufState) (f : FileId) : Outcome (PageId × FrameId) :=
  let pid := natLookup s.nextPage f
  let newPage : Page := { page_number := pid, data := 0 }
  let s0 := allocStage s f
  match allocBuf s0 with
  | .outOfFuel => .outOfFuel
  | .err e s1 ws => .err e s1 ws
  | .ok frameNo s1 ws =>
    match htInsert s1.hashTable (some f, pid) frameNo with
    | .error e => .err e s1 ws
    | .ok ht2 =>
      let s2 := setPool (setHt s1 ht2) frameNo newPage
      .ok (pid, frameNo) (setDesc s2 frameNo ((descAt s2 frameNo).Set f pid)) ws

/-- `BufMgr::disposePage`: delete the durable page (a store failure
propagates), then drop the cached copy if present — an index miss here is
silently swallowed (the "PANIC" comment). -/
def disposePage (s : BufState) (f : FileId) (p : PageId) : Outcome Unit :=
  match storeDelete s.store (some f, p) with
  | none => .err .invalidPage s []
  | some st' =>
    let s1 := { s with store := st' }
    match htLookup s1.hashTable (some f, p) with
    | none => .ok () s1 []
    | some frameNo =>
      let s2 := setHt s1 (htRemove s1.hashTable (some f, p))
      .ok () (setDesc s2 frameNo ((descAt s2 frameNo).Clear)) []

/-- `BufMgr::BufMgr(bufs)`: every descriptor born invalid with its frame
number, an empty pool, an empty hash table, the clock hand at `bufs - 1`. -/
def initState (bufs : Nat) : BufState :=
  { numBufs := bufs,
    bufDescTable := (List.range bufs).map bornDesc,
    bufPool := List.replicate bufs emptyPage,
    hashTable := [],
    clockHand := bufs - 1,
    store := [],
    nextPage := [] }

/-- The buffer-manager operations a caller can drive. -/
inductive Op where
  | fetch (f : FileId) (p : PageId)
  | unpin (f : FileId) (p : PageId) (dirty : Bool)
  | alloc (f : FileId)
  | dispose (f : FileId) (p : PageId)
  | flush (f : FileId)
deriving DecidableEq

/-- The state an operation leaves behind (the object survives a throw; the
fuel case cannot arise but is mapped to the prior state). -/
def step (s : BufState) : Op → BufState
  | .fetch f p => ((readPage s f p).state?).getD s
  | .unpin f p d => ((unPinPage s f p d).state?).getD s
  | .alloc f => ((allocPage s f).state?).getD s
  | .dispose f p => ((disposePage s f p).state?).getD s
  | .flush f => ((flushFile s f).state?).getD s

/-- Run a sequence of operations. -/
def run (s : BufState) : List Op → BufState
  | [] => s
  | op :: ops => run (step s op) ops

/-- Number of set refbits, the part of the sweep's termination measure that
the second-chance step decreases. -/
def countRef (s : BufState) : Nat := s.bufDescTable.countP (fun d => d.refbit)

/-- The hash table's keys are pairwise distinct. -/
def KeysNodup (ht : List (HKey × FrameId)) : Prop := (ht.map Prod.fst).Nodup

/-- A two-frame pool: frame 0 valid and pinned (refbit off), frame 1 valid,
unpinned, recently referenced (refbit on). -/
def cexPool2 : BufState :=
  { numBufs := 2,
    bufDescTable :=
      [ { frameNo := 0, valid := true, refbit := false, pinCnt := 1, dirty := false,
          file := some 0, pageNo := 0 },
        { frameNo := 1, valid := true, refbit := true, pinCnt := 0, dirty := false,
          file := some 0, pageNo := 1 } ],
    bufPool := [ { page_number := 0, data := 10 }, { page_number := 1, data := 11 } ],
    hashTable := [((some 0, 0), 0), ((some 0, 1), 1)],
    clockHand := 1,
    store := [((some 0, 0), { page_number := 0, data := 10 }),
              ((some 0, 1), { page_number := 1, data := 11 })],
    nextPage := [(0, 2)] }

/-- `cexPool2` after the clock sweep that throws: frame 1 lost only its
refbit, the hand parked on frame 0. -/
def cexPool2After : BufState :=
  { cexPool2 with
    bufDescTable :=
      [ { frameNo := 0, valid := true, refbit := false, pinCnt := 1, dirty := false,
          file := some 0, pageNo := 0 },
        { frameNo := 1, valid := true, refbit := false, pinCnt := 0, dirty := false,
          file := some 0, pageNo := 1 } ],
    clockHand := 0 }

/-- A two-frame pool with both frames valid, pinned and recently
referenced. -/
def cexAllPinned : BufState :=
  { numBufs := 2,
    bufDescTable :=
      [ { frameNo := 0, valid := true, refbit := true, pinCnt := 1, dirty := false,
          file := some 0, pageNo := 0 },
        { frameNo := 1, valid := true, refbit := true, pinCnt := 2, dirty := true,
          file := some 0, pageNo := 1 } ],
    bufPool := [ { page_number := 0, data := 10 }, { page_number := 1, data := 11 } ],
    hashTable := [((some 0, 0), 0), ((some 0, 1), 1)],
    clockHand := 1,
    store := [((some 0, 0), { page_number := 0, data := 10 }),
              ((some 0, 1), { page_number := 1, data := 11 })],
    nextPage := [(0, 2)] }

/-- `cexAllPinned` after the failed fetch: both refbits cleared by the
sweep, everything else as before. -/
def cexAllPinnedAfter : BufState :=
  { cexAllPinned with
    bufDescTable :=
      [ { frameNo := 0, valid := true, refbit := false, pinCnt := 1, dirty := false,
          file := some 0, pageNo := 0 },
        { frameNo := 1, valid := true, refbit := false, pinCnt := 2, dirty := true,
          file := some 0, pageNo := 1 } ],
    clockHand := 1 }

/-- A one-frame pool whose single frame is valid and pinned. -/
def cexOnePinned : BufState :=
  { numBufs := 1,
    bufDescTable :=
      [ { frameNo := 0, valid := true, refbit := false, pinCnt := 1, dirty := false,
          file := some 0, pageNo := 3 } ],
    bufPool := [ { page_number := 3, data := 30 } ],
    hashTable := [((some 0, 3), 0)],
    clockHand := 0,
    store := [((some 0, 3), { page_number := 3, data := 30 })],
    nextPage := [(0, 4)] }

/-- A one-frame pool whose single frame is a dirty, unpinned victim. -/
def c6State : BufState :=
  { numBufs := 1,
    bufDescTable :=
      [ { frameNo := 0, valid := true, refbit := false, pinCnt := 0, dirty := true,
          file := some 0, pageNo := 7 } ],
    bufPool := [ { page_number := 7, data := 42 } ],
    hashTable := [((some 0, 7), 0)],
    clockHand := 0,
    store := [((some 0, 7), { page_number := 7, data := 41 })],
    nextPage := [(0, 8)] }

/-- `c6State` after eviction: the frame cleared, the hash table empty, the
latest content written through to the store. -/
def c6After : BufState :=
  { c6State with
    bufDescTable :=
      [ { frameNo := 0, valid := false, refbit := false, pinCnt := 0, dirty := false,
          file := none, pageNo := 0 } ],
    hashTable := [],
    store := [((some 0, 7), { page_number := 7, data := 42 }),
              ((some 0, 7), { page_number := 7, data := 41 })] }

/-- A two-frame pool: frame 0 a dirty, unpinned page of file 1, frame 1 a
pinned page of file 2. -/
def c8State : BufState :=
  { numBufs := 2,
    bufDescTable :=
      [ { frameNo := 0, valid := true, refbit := false, pinCnt := 0, dirty := true,
          file := some 1, pageNo := 3 },
        { frameNo := 1, valid := true, refbit := false, pinCnt := 1, dirty := false,
          file := some 2, pageNo := 5 } ],
    bufPool := [ { page_number := 3, data := 42 }, { page_number := 5, data := 7 } ],
    hashTable := [((some 1, 3), 0), ((some 2, 5), 1)],
    clockHand := 0,
    store := [],
    nextPage := [] }

/-- A two-frame pool in which frame 0 carries file 1's identity while being
invalid, and frame 1 is a flushable page of file 1. -/
def c10State : BufState :=
  { numBufs := 2,
    bufDescTable :=
      [ { frameNo := 0, valid := false, refbit := false, pinCnt := 0, dirty := false,
          file := some 1, pageNo := 0 },
        { frameNo := 1, valid := true, refbit := false, pinCnt := 0, dirty := true,
          file := some 1, pageNo := 4 } ],
    bufPool := [ { page_number := 0, data := 0 }, { page_number := 4, data := 9 } ],
    hashTable := [((some 1, 4), 1)],
    clockHand := 0,
    store := [],
    nextPage := [] }

/-! ### List helpers -/

theorem length_listSet {α : Type} : ∀ (l : List α) (i : Nat) (b : α),
    (listSet l i b).length = l.length
  | [], _, _ => rfl
  | _ :: l, 0, b => rfl
  | a :: l, n+1, b => by simp [listSet, length_listSet l n b]

theorem listGetD_of_le {α : Type} : ∀ (l : List α) (i : Nat) (d : α),
    l.length ≤ i → listGetD l i d = d
  | [], _, _, _ => rfl
  | a :: l, 0, d, h => by simp at h
  | a :: l, n+1, d, h => by
      simp only [List.length_cons] at h
      exact listGetD_of_le l n d (by omega)

theorem listGetD_listSet_self {α : Type} : ∀ (l : List α) (i : Nat) (b d : α),
    i < l.length → listGetD (listSet l i b) i d = b
  | [], i, b, d, h => by simp at h
  | a :: l, 0, b, d, _ => rfl
  | a :: l, n+1, b, d, h => by
      simp only [List.length_cons] at h
      exact listGetD_listSet_self l n b d (by omega)

theorem listGetD_listSet_ne {α : Type} : ∀ (l : List α) (i j : Nat) (b d : α),
    j ≠ i → listGetD (listSet l i b) j d = listGetD l j d
  | [], _, _, _, _, _ => rfl
  | a :: l, 0, 0, b, d, h => absurd rfl h
  | a :: l, 0, m+1, b, d, _ => rfl
  | a :: l, n+1, 0, b, d, _ => rfl
  | a :: l, n+1, m+1, b, d, h =>
      listGetD_listSet_ne l n m b d (fun hc => h (by omega))

/-! ### State accessor lemmas -/

@[simp] theorem advanceClock_bufDescTable (s : BufState) :
    (advanceClock s).bufDescTable = s.bufDescTable := rfl

@[simp] theorem advanceClock_bufPool (s : BufState) :
    (advanceClock s).bufPool = s.bufPool := rfl

@[simp] theorem advanceClock_hashTable (s : BufState) :
    (advanceClock s).hashTable = s.hashTable := rfl

@[simp] theorem advanceClock_numBufs (s : BufState) :
    (advanceClock s).numBufs = s.numBufs := rfl

@[simp] theorem setDesc_bufPool (s : BufState) (i : Nat) (d : BufDesc) :
    (setDesc s i d).bufPool = s.bufPool := rfl

@[simp] theorem setDesc_hashTable (s : BufState) (i : Nat) (d : BufDesc) :
    (setDesc s i d).hashTable = s.hashTable := rfl

@[simp] theorem setDesc_numBufs (s : BufState) (i : Nat) (d : BufDesc) :
    (setDesc s i d).numBufs = s.numBufs := rfl

@[simp] theorem setPool_hashTable (s : BufState) (i : Nat) (pg : Page) :
    (setPool s i pg).hashTable = s.hashTable := rfl

@[simp] theorem setPool_bufDescTable (s : BufState) (i : Nat) (pg : Page) :
    (setPool s i pg).bufDescTable = s.bufDescTable := rfl

@[simp] theorem doWritePage_bufDescTable (s : BufState) (o : Option FileId) (pg : Page) :
    (doWritePage s o pg).bufDescTable = s.bufDescTable := rfl

@[simp] theorem doWritePage_bufPool (s : BufState) (o : Option FileId) (pg : Page) :
    (doWritePage s o pg).bufPool = s.bufPool := rfl

@[simp] theorem doWritePage_hashTable (s : BufState) (o : Option FileId) (pg : Page) :
    (doWritePage s o pg).hashTable = s.hashTable := rfl

@[simp] theorem doWritePage_numBufs (s : BufState) (o : Option FileId) (pg : Page) :
    (doWritePage s o pg).numBufs = s.numBufs := rfl

@[simp] theorem descAt_advanceClock (s : BufState) (i : Nat) :
    descAt (advanceClock s) i = descAt s i := rfl

@[simp] theorem poolAt_advanceClock (s : BufState) (i : Nat) :
    poolAt (advanceClock s) i = poolAt s i := rfl

@[simp] theorem descAt_doWritePage (s : BufState) (o : Option FileId) (pg : Page) (i : Nat) :
    descAt (doWritePage s o pg) i = descAt s i := rfl

@[simp] theorem poolAt_doWritePage (s : BufState) (o : Option FileId) (pg : Page) (i : Nat) :
    poolAt (doWritePage s o pg) i = poolAt s i := rfl

@[simp] theorem poolAt_setDesc (s : BufState) (i : Nat) (d : BufDesc) (j : Nat) :
    poolAt (setDesc s i d) j = poolAt s j := rfl

@[simp] theorem setHt_hashTable (s : BufState) (ht : List (HKey × FrameId)) :
    (setHt s ht).hashTable = ht := rfl

@[simp] theorem setHt_bufDescTable (s : BufState) (ht : List (HKey × FrameId)) :
    (setHt s ht).bufDescTable = s.bufDescTable := rfl

@[simp] theorem setHt_bufPool (s : BufState) (ht : List (HKey × FrameId)) :
    (setHt s ht).bufPool = s.bufPool := rfl

@[simp] theorem setHt_numBufs (s : BufState) (ht : List (HKey × FrameId)) :
    (setHt s ht).numBufs = s.numBufs := rfl

@[simp] theorem descAt_setHt (s : BufState) (ht : List (HKey × FrameId)) (i : Nat) :
    descAt (setHt s ht) i = descAt s i := rfl

@[simp] theorem poolAt_setHt (s : BufState) (ht : List (HKey × FrameId)) (i : Nat) :
    poolAt (setHt s ht) i = poolAt s i := rfl

@[simp] theorem setDesc_bufDescTable_length (s : BufState) (i : Nat) (d : BufDesc) :
    (setDesc s i d).bufDescTable.length = s.bufDescTable.length := by
  simp [setDesc, length_listSet]

@[simp] theorem clearRef_refbit (d : BufDesc) : d.clearRef.refbit = false := rfl
@[simp] theorem clearRef_valid (d : BufDesc) : d.clearRef.valid = d.valid := rfl
@[simp] theorem clearRef_pinCnt (d : BufDesc) : d.clearRef.pinCnt = d.pinCnt := rfl
@[simp] theorem clearRef_dirty (d : BufDesc) : d.clearRef.dirty = d.dirty := rfl
@[simp] theorem clearRef_file (d : BufDesc) : d.clearRef.file = d.file := rfl
@[simp] theorem clearRef_pageNo (d : BufDesc) : d.clearRef.pageNo = d.pageNo := rfl
@[simp] theorem clearRef_frameNo (d : BufDesc) : d.clearRef.frameNo = d.frameNo := rfl

theorem descAt_setDesc_self (s : BufState) (i : Nat) (d : BufDesc)
    (h : i < s.bufDescTable.length) : descAt (setDesc s i d) i = d :=
  listGetD_listSet_self _ _ _ _ h

theorem descAt_setDesc_ne (s : BufState) (i : Nat) (d : BufDesc) (j : Nat)
    (h : j ≠ i) : descAt (setDesc s i d) j = descAt s j :=
  listGetD_listSet_ne _ _ _ _ _ h

theorem lt_length_of_valid (s : BufState) (i : Nat)
    (h : (descAt s i).valid = true) : i < s.bufDescTable.length := by
  by_contra hle
  push_neg at hle
  rw [descAt, listGetD_of_le _ _ _ hle] at h
  simp [bornDesc] at h

theorem lt_length_of_file (s : BufState) (i : Nat) (f : FileId)
    (h : (descAt s i).file = some f) : i < s.bufDescTable.length := by
  by_contra hle
  push_neg at hle
  rw [descAt, listGetD_of_le _ _ _ hle] at h
  simp [bornDesc] at h

theorem BufDesc.Clear_congr {d e : BufDesc} (h : d.frameNo = e.frameNo) :
    d.Clear = e.Clear := by
  simp [BufDesc.Clear, h]

/-! ### Effect of flushing a single frame -/

@[simp] theorem allocStage_hashTable (s : BufState) (f : FileId) :
    (allocStage s f).hashTable = s.hashTable := rfl

@[simp] theorem flushOne_hashTable (f : FileId) (i : Nat) (s : BufState) :
    (flushOne f i s).hashTable = htRemove s.hashTable (some f, (descAt s i).pageNo) := by
  simp only [flushOne]
  by_cases hd : (descAt s i).dirty
  · simp [hd]
  · simp [hd]

@[simp] theorem flushOne_bufPool (f : FileId) (i : Nat) (s : BufState) :
    (flushOne f i s).bufPool = s.bufPool := by
  simp only [flushOne]
  by_cases hd : (descAt s i).dirty
  · simp [hd]
  · simp [hd]

@[simp] theorem flushOne_numBufs (f : FileId) (i : Nat) (s : BufState) :
    (flushOne f i s).numBufs = s.numBufs := by
  simp only [flushOne]
  by_cases hd : (descAt s i).dirty
  · simp [hd]
  · simp [hd]

@[simp] theorem flushOne_length (f : FileId) (i : Nat) (s : BufState) :
    (flushOne f i s).bufDescTable.length = s.bufDescTable.length := by
  simp only [flushOne]
  by_cases hd : (descAt s i).dirty
  · simp [hd]
  · simp [hd]

theorem descAt_flushOne_ne (f : FileId) (i : Nat) (s : BufState) (j : Nat) (hj : j ≠ i) :
    descAt (flushOne f i s) j = descAt s j := by
  simp only [flushOne]
  rw [descAt_setDesc_ne _ _ _ _ hj, descAt_setHt]
  by_cases hd : (descAt s i).dirty
  · rw [if_pos hd, descAt_setDesc_ne _ _ _ _ hj, descAt_doWritePage]
  · rw [if_neg hd]

theorem descAt_flushOne_self (f : FileId) (i : Nat) (s : BufState)
    (h : i < s.bufDescTable.length) :
    descAt (flushOne f i s) i = (descAt s i).Clear := by
  simp only [flushOne]
  by_cases hd : (descAt s i).dirty
  · rw [if_pos hd]
    rw [descAt_setDesc_self _ _ _ (by simpa using h)]
    apply BufDesc.Clear_congr
    rw [descAt_setHt, descAt_setDesc_self _ _ _ (by simpa using h)]
    rfl
  · rw [if_neg hd]
    rw [descAt_setDesc_self _ _ _ (by simpa using h)]
    exact BufDesc.Clear_congr (by rw [descAt_setHt])

theorem flushFrom_step_skip (f : FileId) (k i : Nat) (s : BufState)
    (hm : ¬ (descAt s i).file = some f) :
    flushFrom f (k+1) i s = flushFrom f k (i+1) s := by
  simp [flushFrom, hm]

theorem flushFrom_step_bad (f : FileId) (k i : Nat) (s : BufState)
    (hm : (descAt s i).file = some f) (hv : (descAt s i).valid = false) :
    flushFrom f (k+1) i s = .err .badBuffer s [] := by
  simp [flushFrom, hm, hv]

theorem flushFrom_step_pin (f : FileId) (k i : Nat) (s : BufState)
    (hm : (descAt s i).file = some f) (hv : (descAt s i).valid = true)
    (hp : 0 < (descAt s i).pinCnt) :
    flushFrom f (k+1) i s = .err .pagePinned s [] := by
  simp [flushFrom, hm, hv, hp]

theorem flushFrom_step_go (f : FileId) (k i : Nat) (s : BufState)
    (hm : (descAt s i).file = some f) (hv : (descAt s i).valid = true)
    (hp : (descAt s i).pinCnt = 0) :
    flushFrom f (k+1) i s =
      (flushFrom f k (i+1) (flushOne f i s)).addWrites
        (if (descAt s i).dirty then [((descAt s i).file, poolAt s i)] else []) := by
  simp [flushFrom, hm, hv, hp]

/-! ### Termination and shape of the clock sweep -/

theorem countRef_le (s : BufState) : countRef s ≤ s.bufDescTable.length :=
  List.countP_le_length _

theorem countP_listSet_refbit : ∀ (l : List BufDesc) (i : Nat) (d' : BufDesc),
    (listGetD l i (bornDesc 0)).refbit = true → d'.refbit = false →
    (listSet l i d').countP (fun d => d.refbit) + 1 = l.countP (fun d => d.refbit)
  | [], i, d', h, _ => by simp [listGetD_of_le, bornDesc] at h
  | a :: l, 0, d', h, h' => by
      simp only [listGetD] at h
      simp [listSet, List.countP_cons, h, h']
  | a :: l, n+1, d', h, h' => by
      simp only [listGetD] at h
      simp only [listSet, List.countP_cons]
      have := countP_listSet_refbit l n d' h h'
      omega

/-- One sweep step, invalid frame at the hand: take it. -/
theorem allocBufLoop_step_invalid (fuel : Nat) (s : BufState) (np : Nat)
    (hv : (descAt s s.clockHand).valid = false) :
    allocBufLoop (fuel+1) s np =
      .ok s.clockHand (setDesc s s.clockHand (descAt s s.clockHand).Clear) [] := by
  simp [allocBufLoop, hv]

/-- One sweep step, set refbit at the hand: clear it and move on. -/
theorem allocBufLoop_step_refbit (fuel : Nat) (s : BufState) (np : Nat)
    (hv : (descAt s s.clockHand).valid = true)
    (hr : (descAt s s.clockHand).refbit = true) :
    allocBufLoop (fuel+1) s np =
      allocBufLoop fuel
        (advanceClock (setDesc s s.clockHand (descAt s s.clockHand).clearRef)) np := by
  simp [allocBufLoop, hv, hr]

/-- One sweep step, pinned frame completing the tally: throw. -/
theorem allocBufLoop_step_throw (fuel : Nat) (s : BufState) (np : Nat)
    (hv : (descAt s s.clockHand).valid = true)
    (hr : (descAt s s.clockHand).refbit = false)
    (hp : 0 < (descAt s s.clockHand).pinCnt)
    (he : np + 1 = s.numBufs) :
    allocBufLoop (fuel+1) s np = .err .bufferExceeded s [] := by
  simp [allocBufLoop, hv, hr, hp, he]

/-- One sweep step, pinned frame, tally not yet full: count it and move on. -/
theorem allocBufLoop_step_pinned (fuel : Nat) (s : BufState) (np : Nat)
    (hv : (descAt s s.clockHand).valid = true)
    (hr : (descAt s s.clockHand).refbit = false)
    (hp : 0 < (descAt s s.clockHand).pinCnt)
    (he : ¬ np + 1 = s.numBufs) :
    allocBufLoop (fuel+1) s np = allocBufLoop fuel (advanceClock s) (np + 1) := by
  simp [allocBufLoop, hv, hr, hp, he]

/-- One sweep step, the victim: write back if dirty, drop the hash entry,
clear the descriptor, return the frame. -/
theorem allocBufLoop_step_victim (fuel : Nat) (s : BufState) (np : Nat)
    (hv : (descAt s s.clockHand).valid = true)
    (hr : (descAt s s.clockHand).refbit = false)
    (hp : (descAt s s.clockHand).pinCnt = 0) :
    allocBufLoop (fuel+1) s np =
      .ok s.clockHand
        (setDesc
          (setHt
            (if (descAt s s.clockHand).dirty
              then setDesc (doWritePage s (descAt s s.clockHand).file (poolAt s s.clockHand))
                     s.clockHand (descAt s s.clockHand).clearDirty
              else s)
            (htRemove
              (if (descAt s s.clockHand).dirty
                then setDesc (doWritePage s (descAt s s.clockHand).file (poolAt s s.clockHand))
                       s.clockHand (descAt s s.clockHand).clearDirty
                else s).hashTable
              ((descAt s s.clockHand).file, (descAt s s.clockHand).pageNo)))
          s.clockHand (descAt s s.clockHand).Clear)
        (if (descAt s s.clockHand).dirty
          then [((descAt s s.clockHand).file, poolAt s s.clockHand)] else []) := by
  simp [allocBufLoop, hv, hr, hp]

theorem allocBufLoop_fueled : ∀ (fuel : Nat) (s : BufState) (np : Nat),
    np < s.numBufs → countRef s + (s.numBufs - np) ≤ fuel →
    allocBufLoop fuel s np ≠ .outOfFuel := by
  intro fuel
  induction fuel with
  | zero => intro s np hnp hfuel; exact absurd hfuel (by omega)
  | succ fuel ih =>
    intro s np hnp hfuel
    by_cases hv : (descAt s s.clockHand).valid = true
    · by_cases hr : (descAt s s.clockHand).refbit = true
      · rw [allocBufLoop_step_refbit fuel s np hv hr]
        apply ih _ _ (by simpa using hnp)
        have hcnt : countRef (advanceClock
            (setDesc s s.clockHand (descAt s s.clockHand).clearRef)) + 1
            = countRef s := by
          simpa [countRef, advanceClock, setDesc] using
            countP_listSet_refbit s.bufDescTable s.clockHand
              (descAt s s.clockHand).clearRef hr rfl
        simp only [advanceClock_numBufs, setDesc_numBufs]
        omega
      · rw [Bool.not_eq_true] at hr
        by_cases hp : 0 < (descAt s s.clockHand).pinCnt
        · by_cases he : np + 1 = s.numBufs
          · rw [allocBufLoop_step_throw fuel s np hv hr hp he]
            simp
          · rw [allocBufLoop_step_pinned fuel s np hv hr hp he]
            apply ih _ _ (by simp; omega)
            have : countRef (advanceClock s) = countRef s := rfl
            simp only [advanceClock_numBufs]
            omega
        · rw [allocBufLoop_step_victim fuel s np hv hr (by omega)]
          simp
    · rw [allocBufLoop_step_invalid fuel s np (by simpa using hv)]
      simp

theorem allocBufLoop_forms : ∀ (fuel : Nat) (s : BufState) (np : Nat),
    (∃ fr s' ws, allocBufLoop fuel s np = .ok fr s' ws) ∨
    (∃ s' ws, allocBufLoop fuel s np = .err .bufferExceeded s' ws) ∨
    allocBufLoop fuel s np = .outOfFuel := by
  intro fuel
  induction fuel with
  | zero => intro s np; right; right; rfl
  | succ fuel ih =>
    intro s np
    by_cases hv : (descAt s s.clockHand).valid = true
    · by_cases hr : (descAt s s.clockHand).refbit = true
      · rw [allocBufLoop_step_refbit fuel s np hv hr]
        exact ih _ _
      · rw [Bool.not_eq_true] at hr
        by_cases hp : 0 < (descAt s s.clockHand).pinCnt
        · by_cases he : np + 1 = s.numBufs
          · right; left
            exact ⟨s, [], allocBufLoop_step_throw fuel s np hv hr hp he⟩
          · rw [allocBufLoop_step_pinned fuel s np hv hr hp he]
            exact ih _ _
        · left
          exact ⟨_, _, _, allocBufLoop_step_victim fuel s np hv hr (by omega)⟩
    · left
      exact ⟨_, _, _, allocBufLoop_step_invalid fuel s np (by simpa using hv)⟩

/-- When the sweep hands out a frame that was valid at the start of the
sweep, that frame was chosen as the victim: it was unpinned, it was written
back exactly once if and only if it was dirty, its descriptor ends cleared
and its hash entry ends removed (the sweep touches no other hash entry). -/
theorem allocBufLoop_ok_of_valid : ∀ (fuel np : Nat) (s : BufState) (fr : FrameId)
    (s' : BufState) (ws : List WriteEv),
    allocBufLoop fuel s np = .ok fr s' ws → (descAt s fr).valid = true →
    (descAt s fr).pinCnt = 0 ∧
    ws = (if (descAt s fr).dirty then [((descAt s fr).file, poolAt s fr)] else []) ∧
    descAt s' fr = (descAt s fr).Clear ∧
    s'.hashTable = htRemove s.hashTable ((descAt s fr).file, (descAt s fr).pageNo) := by
  intro fuel
  induction fuel with
  | zero =>
    intro np s fr s' ws h
    exact absurd h (by simp [allocBufLoop])
  | succ fuel ih =>
    intro np s fr s' ws h hv
    by_cases hva : (descAt s s.clockHand).valid = true
    · by_cases hrr : (descAt s s.clockHand).refbit = true
      · rw [allocBufLoop_step_refbit fuel s np hva hrr] at h
        have hlen : s.clockHand < s.bufDescTable.length := lt_length_of_valid s _ hva
        have hdfr : ∀ t : BufState,
            t = advanceClock (setDesc s s.clockHand (descAt s s.clockHand).clearRef) →
            (descAt t fr).valid = (descAt s fr).valid ∧
            (descAt t fr).pinCnt = (descAt s fr).pinCnt ∧
            (descAt t fr).dirty = (descAt s fr).dirty ∧
            (descAt t fr).file = (descAt s fr).file ∧
            (descAt t fr).pageNo = (descAt s fr).pageNo ∧
            (descAt t fr).frameNo = (descAt s fr).frameNo := by
          intro t htdef
          subst htdef
          by_cases hfr : fr = s.clockHand
          · subst hfr
            rw [descAt_advanceClock, descAt_setDesc_self _ _ _ hlen]
            simp
          · rw [descAt_advanceClock, descAt_setDesc_ne s _ _ fr hfr]
            simp
        obtain ⟨e1, e2, e3, e4, e5, e6⟩ := hdfr _ rfl
        obtain ⟨p1, p2, p3, p4⟩ := ih np _ fr s' ws h (by rw [e1]; exact hv)
        refine ⟨by rw [← e2]; exact p1, ?_, ?_, ?_⟩
        · rw [p2, e3, e4]
          rfl
        · rw [p3]
          exact BufDesc.Clear_congr e6
        · rw [p4, e4, e5]
          rfl
      · rw [Bool.not_eq_true] at hrr
        by_cases hp : 0 < (descAt s s.clockHand).pinCnt
        · by_cases he : np + 1 = s.numBufs
          · rw [allocBufLoop_step_throw fuel s np hva hrr hp he] at h
            exact absurd h (by simp)
          · rw [allocBufLoop_step_pinned fuel s np hva hrr hp he] at h
            exact ih (np+1) (advanceClock s) fr s' ws h hv
        · rw [allocBufLoop_step_victim fuel s np hva hrr (by omega)] at h
          rw [Outcome.ok.injEq] at h
          obtain ⟨hfr, hs', hws⟩ := h
          subst hfr
          have hlen : s.clockHand < s.bufDescTable.length := lt_length_of_valid s _ hva
          refine ⟨by omega, by rw [← hws], ?_, ?_⟩
          · rw [← hs']
            rw [descAt_setDesc_self]
            · simp only [setHt_bufDescTable]
              split <;> simp [hlen]
          · rw [← hs']
            simp only [setDesc_hashTable, setHt_hashTable]
            have hht : (if (descAt s s.clockHand).dirty
                then setDesc (doWritePage s (descAt s s.clockHand).file (poolAt s s.clockHand))
                       s.clockHand (descAt s s.clockHand).clearDirty
                else s).hashTable = s.hashTable := by
              split <;> simp
            rw [hht]
    · rw [Bool.not_eq_true] at hva
      rw [allocBufLoop_step_invalid fuel s np hva] at h
      rw [Outcome.ok.injEq] at h
      obtain ⟨hfr, _, _⟩ := h
      subst hfr
      rw [hva] at hv
      exact absurd hv (by simp)

theorem allocBuf_not_outOfFuel (s : BufState) (hn : 1 ≤ s.numBufs) :
    allocBuf s ≠ .outOfFuel := by
  unfold allocBuf
  apply allocBufLoop_fueled
  · simpa using hn
  · have h1 : countRef (advanceClock s) = countRef s := rfl
    have h2 := countRef_le s
    simp only [advanceClock_numBufs]
    omega

/-- C9: for every pool state with at least one frame, `allocBuf` terminates,
either returning a frame or throwing `BufferExceededException`; in a pool of
size one it returns frame 0 when the single frame is invalid or unpinned,
and throws when the frame is valid and pinned. -/
theorem allocBuf_terminates (s : BufState) (hn : 1 ≤ s.numBufs) :
    ((∃ fr s' ws, allocBuf s = .ok fr s' ws) ∨
     (∃ s' ws, allocBuf s = .err .bufferExceeded s' ws)) ∧
    (∀ d : BufDesc, s.numBufs = 1 → s.bufDescTable = [d] →
      ((d.valid = false ∨ d.pinCnt = 0) → ∃ s' ws, allocBuf s = .ok 0 s' ws) ∧
      (d.valid = true → 0 < d.pinCnt →
        ∃ s' ws, allocBuf s = .err .bufferExceeded s' ws)) := by
  constructor
  · rcases allocBufLoop_forms (s.numBufs + s.bufDescTable.length + 1) (advanceClock s) 0
      with h | h | h
    · left; exact h
    · right; exact h
    · exact absurd h (allocBuf_not_outOfFuel s hn)
  · intro d hn1 htab
    have hlen : s.bufDescTable.length = 1 := by rw [htab]; rfl
    have hhand : (advanceClock s).clockHand = 0 := by
      simp [advanceClock, hn1, Nat.mod_one]
    have hd0 : descAt (advanceClock s) ((advanceClock s).clockHand) = d := by
      rw [hhand]
      show listGetD s.bufDescTable 0 (bornDesc 0) = d
      rw [htab]
      rfl
    unfold allocBuf
    rw [hn1, hlen]
    have hT : ∀ u : BufState,
        u = advanceClock (setDesc (advanceClock s) 0 d.clearRef) →
        u.clockHand = 0 ∧ descAt u 0 = d.clearRef ∧ u.numBufs = 1 := by
      intro u hu
      subst hu
      refine ⟨?_, ?_, ?_⟩
      · simp [advanceClock, setDesc, hn1, Nat.mod_one]
      · show listGetD (listSet s.bufDescTable 0 d.clearRef) 0 (bornDesc 0) = d.clearRef
        rw [htab]
        rfl
      · simp [hn1]
    constructor
    · intro hfree
      by_cases hval : d.valid = true
      · have hpin : d.pinCnt = 0 := by
          rcases hfree with hf | hf
          · rw [hval] at hf; exact absurd hf (by simp)
          · exact hf
        by_cases hrb : d.refbit = true
        · have h1 := allocBufLoop_step_refbit (1 + 1)
            (advanceClock s) 0 (by rw [hd0]; exact hval) (by rw [hd0]; exact hrb)
          rw [hd0, hhand] at h1
          obtain ⟨ht2, hdt, _⟩ := hT _ rfl
          have h2 := allocBufLoop_step_victim 1
            (advanceClock (setDesc (advanceClock s) 0 d.clearRef)) 0
            (by rw [ht2, hdt]; simpa using hval)
            (by rw [ht2, hdt]; simp)
            (by rw [ht2, hdt]; simpa using hpin)
          rw [ht2] at h2
          exact ⟨_, _, h1.trans h2⟩
        · rw [Bool.not_eq_true] at hrb
          have h1 := allocBufLoop_step_victim (1 + 1)
            (advanceClock s) 0 (by rw [hd0]; exact hval) (by rw [hd0]; exact hrb)
            (by rw [hd0]; exact hpin)
          rw [hhand] at h1
          exact ⟨_, _, h1⟩
      · rw [Bool.not_eq_true] at hval
        have h1 := allocBufLoop_step_invalid (1 + 1)
          (advanceClock s) 0 (by rw [hd0]; exact hval)
        rw [hhand] at h1
        exact ⟨_, _, h1⟩
    · intro hval hpin
      by_cases hrb : d.refbit = true
      · have h1 := allocBufLoop_step_refbit (1 + 1)
          (advanceClock s) 0 (by rw [hd0]; exact hval) (by rw [hd0]; exact hrb)
        rw [hd0, hhand] at h1
        obtain ⟨ht2, hdt, hnb⟩ := hT _ rfl
        have h2 := allocBufLoop_step_throw 1
          (advanceClock (setDesc (advanceClock s) 0 d.clearRef)) 0
          (by rw [ht2, hdt]; simpa using hval)
          (by rw [ht2, hdt]; simp)
          (by rw [ht2, hdt]; simpa using hpin)
          (by rw [hnb])
        exact ⟨_, _, h1.trans h2⟩
      · rw [Bool.not_eq_true] at hrb
        have h1 := allocBufLoop_step_throw (1 + 1)
          (advanceClock s) 0 (by rw [hd0]; exact hval) (by rw [hd0]; exact hrb)
          (by rw [hd0]; exact hpin) (by simp [hn1])
        exact ⟨_, _, h1⟩

/-- C6: when `allocBuf` selects a victim frame that was valid, with refbit
off, unpinned and dirty, exactly one write-back of that frame's pool content
goes through the owning file, the frame's hash entry is removed (and nothing
else changes in the hash table), and its descriptor is reset to the born
state — in particular `dirty` and `valid` end false. -/
theorem allocBuf_dirty_victim_writeback (s : BufState) (fr : FrameId) (s' : BufState)
    (ws : List WriteEv) (fid : FileId)
    (h : allocBuf s = .ok fr s' ws)
    (hv : (descAt s fr).valid = true)
    (_hr : (descAt s fr).refbit = false)
    (_hp : (descAt s fr).pinCnt = 0)
    (hd : (descAt s fr).dirty = true)
    (hf : (descAt s fr).file = some fid) :
    ws = [(some fid, poolAt s fr)] ∧
    descAt s' fr = (descAt s fr).Clear ∧
    (descAt s' fr).dirty = false ∧ (descAt s' fr).valid = false ∧
    s'.hashTable = htRemove s.hashTable (some fid, (descAt s fr).pageNo) := by
  have h0 : allocBufLoop (s.numBufs + s.bufDescTable.length + 1) (advanceClock s) 0
      = .ok fr s' ws := h
  obtain ⟨p1, p2, p3, p4⟩ := allocBufLoop_ok_of_valid _ 0 (advanceClock s) fr s' ws h0 hv
  simp only [descAt_advanceClock, poolAt_advanceClock, advanceClock_hashTable] at p2 p3 p4
  rw [hd, hf] at p2
  rw [hf] at p4
  refine ⟨by simpa using p2, p3, ?_, ?_, p4⟩
  · rw [p3]; rfl
  · rw [p3]; rfl

/-- C7: for a page resident in the pool, `unPinPage` throws
`PageNotPinnedException` when the frame is not pinned (so a second unpin
after a single pin fails that way) and otherwise decrements the pin count by
exactly one and ors the dirty bit with `markDirty` — never clearing an
already-set dirty bit. -/
theorem unPinPage_spec (s : BufState) (f : FileId) (p : PageId) (md : Bool) (fr : FrameId)
    (hl : htLookup s.hashTable (some f, p) = some fr) :
    ((descAt s fr).pinCnt = 0 → unPinPage s f p md = .err .pageNotPinned s []) ∧
    (∀ k, (descAt s fr).pinCnt = k + 1 →
      unPinPage s f p md = .ok () (setDesc s fr ((descAt s fr).unpin md)) [] ∧
      (descAt (setDesc s fr ((descAt s fr).unpin md)) fr).pinCnt = k ∧
      (descAt (setDesc s fr ((descAt s fr).unpin md)) fr).dirty
        = ((descAt s fr).dirty || md)) ∧
    (∀ md2 : Bool, (descAt s fr).pinCnt = 1 →
      unPinPage (setDesc s fr ((descAt s fr).unpin md)) f p md2
        = .err .pageNotPinned (setDesc s fr ((descAt s fr).unpin md)) []) := by
  refine ⟨?_, ?_, ?_⟩
  · intro h0
    simp [unPinPage, hl, h0]
  · intro k hk
    have hfr : fr < s.bufDescTable.length := by
      by_contra hge
      push_neg at hge
      rw [descAt, listGetD_of_le _ _ _ hge] at hk
      simp [bornDesc] at hk
    have hself := descAt_setDesc_self s fr ((descAt s fr).unpin md) hfr
    refine ⟨by simp [unPinPage, hl, hk], ?_, ?_⟩
    · rw [hself]
      simp [BufDesc.unpin, hk]
    · rw [hself]
      rfl
  · intro md2 h1
    have hfr : fr < s.bufDescTable.length := by
      by_contra hge
      push_neg at hge
      rw [descAt, listGetD_of_le _ _ _ hge] at h1
      simp [bornDesc] at h1
    have hpin2 : (descAt (setDesc s fr ((descAt s fr).unpin md)) fr).pinCnt = 0 := by
      rw [descAt_setDesc_self s fr _ hfr]
      simp [BufDesc.unpin, h1]
    simp [unPinPage, hl, hpin2]

/-- C2 (code bug): on an index miss, when `allocBuf` throws
`BufferExceededException`, `readPage` catches it in its "PANIC" handler and
returns normally with no frame produced, instead of propagating the
failure. -/
theorem readPage_swallows_exhaustion (s : BufState) (f : FileId) (p : PageId)
    (s' : BufState) (ws : List WriteEv)
    (hmiss : htLookup s.hashTable (some f, p) = none)
    (hex : allocBuf s = .err .bufferExceeded s' ws) :
    readPage s f p = .ok none s' ws := by
  simp [readPage, hmiss, hex]

/-- C4 (code bug): when the page is not in the index, `unPinPage` returns
silently with the state untouched — its "PANIC" handler swallows the index
miss instead of reporting a page-not-found error. -/
theorem unPinPage_silent_on_missing_page (s : BufState) (f : FileId) (p : PageId) (md : Bool)
    (hmiss : htLookup s.hashTable (some f, p) = none) :
    unPinPage s f p md = .ok () s [] := by
  simp [unPinPage, hmiss]

/-! ### Key uniqueness of the page index -/

@[simp] theorem Outcome.state?_addWrites {α : Type} (w : List WriteEv) (o : Outcome α) :
    (o.addWrites w).state? = o.state? := by
  cases o <;> rfl

theorem htRemove_sublist : ∀ (ht : List (HKey × FrameId)) (k : HKey),
    (htRemove ht k).Sublist ht := by
  intro ht k
  induction ht with
  | nil => simp [htRemove]
  | cons e t ih =>
    by_cases he : e.1 = k
    · rw [htRemove, if_pos he]
      exact ih.cons e
    · rw [htRemove, if_neg he]
      exact ih.cons₂ e

theorem keysNodup_htRemove (ht : List (HKey × FrameId)) (k : HKey)
    (h : KeysNodup ht) : KeysNodup (htRemove ht k) :=
  List.Nodup.sublist ((htRemove_sublist ht k).map Prod.fst) h

theorem htLookup_eq_none_iff : ∀ (ht : List (HKey × FrameId)) (k : HKey),
    htLookup ht k = none ↔ k ∉ ht.map Prod.fst := by
  intro ht k
  induction ht with
  | nil => simp [htLookup]
  | cons e t ih =>
    by_cases he : e.1 = k
    · simp [htLookup, he]
    · simp [htLookup, he, ih, Ne.symm he]

theorem keysNodup_htInsert (ht ht' : List (HKey × FrameId)) (k : HKey) (fr : FrameId)
    (h : KeysNodup ht) (hins : htInsert ht k fr = .ok ht') : KeysNodup ht' := by
  unfold htInsert at hins
  cases hlk : htLookup ht k with
  | none =>
    simp only [hlk] at hins
    rw [Except.ok.injEq] at hins
    rw [← hins]
    exact List.nodup_cons.mpr ⟨(htLookup_eq_none_iff ht k).mp hlk, h⟩
  | some fr' =>
    simp only [hlk] at hins
    by_cases hfr : fr' = fr
    · rw [if_pos hfr, Except.ok.injEq] at hins
      rw [← hins]
      exact h
    · rw [if_neg hfr] at hins
      exact absurd hins (by simp)

theorem allocBufLoop_keys : ∀ (fuel np : Nat) (s s' : BufState),
    (allocBufLoop fuel s np).state? = some s' →
    KeysNodup s.hashTable → KeysNodup s'.hashTable := by
  intro fuel
  induction fuel with
  | zero =>
    intro np s s' h
    exact absurd h (by simp [allocBufLoop, Outcome.state?])
  | succ fuel ih =>
    intro np s s' h hk
    by_cases hva : (descAt s s.clockHand).valid = true
    · by_cases hrr : (descAt s s.clockHand).refbit = true
      · rw [allocBufLoop_step_refbit fuel s np hva hrr] at h
        exact ih np _ s' h hk
      · rw [Bool.not_eq_true] at hrr
        by_cases hp : 0 < (descAt s s.clockHand).pinCnt
        · by_cases he : np + 1 = s.numBufs
          · rw [allocBufLoop_step_throw fuel s np hva hrr hp he] at h
            simp only [Outcome.state?, Option.some.injEq] at h
            rw [← h]
            exact hk
          · rw [allocBufLoop_step_pinned fuel s np hva hrr hp he] at h
            exact ih (np+1) _ s' h hk
        · rw [allocBufLoop_step_victim fuel s np hva hrr (by omega)] at h
          simp only [Outcome.state?, Option.some.injEq] at h
          rw [← h]
          rw [setDesc_hashTable, setHt_hashTable]
          have hht : (if (descAt s s.clockHand).dirty
              then setDesc (doWritePage s (descAt s s.clockHand).file (poolAt s s.clockHand))
                     s.clockHand (descAt s s.clockHand).clearDirty
              else s).hashTable = s.hashTable := by
            split <;> simp
          rw [hht]
          exact keysNodup_htRemove _ _ hk
    · rw [Bool.not_eq_true] at hva
      rw [allocBufLoop_step_invalid fuel s np hva] at h
      simp only [Outcome.state?, Option.some.injEq] at h
      rw [← h]
      exact hk

theorem allocBuf_keys (s s' : BufState) (h : (allocBuf s).state? = some s')
    (hk : KeysNodup s.hashTable) : KeysNodup s'.hashTable :=
  allocBufLoop_keys _ 0 (advanceClock s) s' h hk

theorem readPage_keys (s : BufState) (f : FileId) (p : PageId) (s' : BufState)
    (h : (readPage s f p).state? = some s') (hk : KeysNodup s.hashTable) :
    KeysNodup s'.hashTable := by
  unfold readPage at h
  cases hlk : htLookup s.hashTable (some f, p) with
  | some fr =>
    simp only [hlk] at h
    simp only [Outcome.state?, Option.some.injEq] at h
    rw [← h]
    exact hk
  | none =>
    simp only [hlk] at h
    cases hab : allocBuf s with
    | outOfFuel =>
      simp only [hab] at h
      exact absurd h (by simp [Outcome.state?])
    | err e s1 ws =>
      simp only [hab] at h
      have hk1 : KeysNodup s1.hashTable :=
        allocBuf_keys s s1 (by rw [hab]; rfl) hk
      by_cases he : e = .bufferExceeded
      · rw [if_pos he] at h
        simp only [Outcome.state?, Option.some.injEq] at h
        rw [← h]; exact hk1
      · rw [if_neg he] at h
        simp only [Outcome.state?, Option.some.injEq] at h
        rw [← h]; exact hk1
    | ok fr s1 ws =>
      simp only [hab] at h
      have hk1 : KeysNodup s1.hashTable :=
        allocBuf_keys s s1 (by rw [hab]; rfl) hk
      cases hsl : storeLookup s1.store (some f, p) with
      | none =>
        simp only [hsl] at h
        simp only [Outcome.state?, Option.some.injEq] at h
        rw [← h]; exact hk1
      | some pg =>
        simp only [hsl] at h
        cases hins : htInsert (setPool s1 fr pg).hashTable (some f, p) fr with
        | error e =>
          simp only [hins] at h
          simp only [Outcome.state?, Option.some.injEq] at h
          rw [← h]
          rw [setPool_hashTable]
          exact hk1
        | ok ht2 =>
          simp only [hins] at h
          simp only [Outcome.state?, Option.some.injEq] at h
          rw [← h]
          rw [setDesc_hashTable, setHt_hashTable]
          refine keysNodup_htInsert _ _ _ _ ?_ hins
          rw [setPool_hashTable]
          exact hk1

theorem unPinPage_keys (s : BufState) (f : FileId) (p : PageId) (md : Bool) (s' : BufState)
    (h : (unPinPage s f p md).state? = some s') (hk : KeysNodup s.hashTable) :
    KeysNodup s'.hashTable := by
  unfold unPinPage at h
  cases hlk : htLookup s.hashTable (some f, p) with
  | none =>
    simp only [hlk] at h
    simp only [Outcome.state?, Option.some.injEq] at h
    rw [← h]; exact hk
  | some fr =>
    simp only [hlk] at h
    by_cases hp : (descAt s fr).pinCnt = 0
    · rw [if_pos hp] at h
      simp only [Outcome.state?, Option.some.injEq] at h
      rw [← h]; exact hk
    · rw [if_neg hp] at h
      simp only [Outcome.state?, Option.some.injEq] at h
      rw [← h]; exact hk

theorem allocPage_keys (s : BufState) (f : FileId) (s' : BufState)
    (h : (allocPage s f).state? = some s') (hk : KeysNodup s.hashTable) :
    KeysNodup s'.hashTable := by
  unfold allocPage at h
  have hk0 : KeysNodup (allocStage s f).hashTable := hk
  cases hab : allocBuf (allocStage s f) with
  | outOfFuel =>
    simp only [hab] at h
    exact absurd h (by simp [Outcome.state?])
  | err e s1 ws =>
    simp only [hab] at h
    simp only [Outcome.state?, Option.some.injEq] at h
    rw [← h]
    exact allocBuf_keys (allocStage s f) s1 (by rw [hab]; rfl) hk0
  | ok fr s1 ws =>
    simp only [hab] at h
    have hk1 : KeysNodup s1.hashTable :=
      allocBuf_keys (allocStage s f) s1 (by rw [hab]; rfl) hk0
    cases hins : htInsert s1.hashTable (some f, natLookup s.nextPage f) fr with
    | error e =>
      simp only [hins] at h
      simp only [Outcome.state?, Option.some.injEq] at h
      rw [← h]; exact hk1
    | ok ht2 =>
      simp only [hins] at h
      simp only [Outcome.state?, Option.some.injEq] at h
      rw [← h]
      rw [setDesc_hashTable, setPool_hashTable, setHt_hashTable]
      exact keysNodup_htInsert _ _ _ _ hk1 hins

theorem disposePage_keys (s : BufState) (f : FileId) (p : PageId) (s' : BufState)
    (h : (disposePage s f p).state? = some s') (hk : KeysNodup s.hashTable) :
    KeysNodup s'.hashTable := by
  unfold disposePage at h
  cases hsd : storeDelete s.store (some f, p) with
  | none =>
    simp only [hsd] at h
    simp only [Outcome.state?, Option.some.injEq] at h
    rw [← h]; exact hk
  | some st' =>
    simp only [hsd] at h
    cases hlk : htLookup ({ s with store := st' } : BufState).hashTable (some f, p) with
    | none =>
      simp only [hlk] at h
      simp only [Outcome.state?, Option.some.injEq] at h
      rw [← h]; exact hk
    | some fr =>
      simp only [hlk] at h
      simp only [Outcome.state?, Option.some.injEq] at h
      rw [← h]
      rw [setDesc_hashTable, setHt_hashTable]
      exact keysNodup_htRemove _ _ hk

theorem flushFrom_keys (f : FileId) : ∀ (k i : Nat) (s s' : BufState),
    (flushFrom f k i s).state? = some s' →
    KeysNodup s.hashTable → KeysNodup s'.hashTable := by
  intro k
  induction k with
  | zero =>
    intro i s s' h hk
    simp only [flushFrom, Outcome.state?, Option.some.injEq] at h
    rw [← h]; exact hk
  | succ k ih =>
    intro i s s' h hk
    by_cases hm : (descAt s i).file = some f
    · by_cases hval : (descAt s i).valid = true
      · by_cases hp : 0 < (descAt s i).pinCnt
        · rw [flushFrom_step_pin f k i s hm hval hp] at h
          simp only [Outcome.state?, Option.some.injEq] at h
          rw [← h]; exact hk
        · rw [flushFrom_step_go f k i s hm hval (by omega)] at h
          rw [Outcome.state?_addWrites] at h
          apply ih (i+1) (flushOne f i s) s' h
          rw [flushOne_hashTable]
          exact keysNodup_htRemove _ _ hk
      · rw [flushFrom_step_bad f k i s hm (by simpa using hval)] at h
        simp only [Outcome.state?, Option.some.injEq] at h
        rw [← h]; exact hk
    · rw [flushFrom_step_skip f k i s hm] at h
      exact ih (i+1) s s' h hk

theorem flushFile_keys (s : BufState) (f : FileId) (s' : BufState)
    (h : (flushFile s f).state? = some s') (hk : KeysNodup s.hashTable) :
    KeysNodup s'.hashTable :=
  flushFrom_keys f s.numBufs 0 s s' h hk

theorem step_keys (s : BufState) (op : Op) (hk : KeysNodup s.hashTable) :
    KeysNodup (step s op).hashTable := by
  cases op with
  | fetch f p =>
    cases hsp : (readPage s f p).state? with
    | some s2 =>
      simp only [step, hsp, Option.getD_some]
      exact readPage_keys s f p s2 hsp hk
    | none => simp only [step, hsp, Option.getD_none]; exact hk
  | unpin f p d =>
    cases hsp : (unPinPage s f p d).state? with
    | some s2 =>
      simp only [step, hsp, Option.getD_some]
      exact unPinPage_keys s f p d s2 hsp hk
    | none => simp only [step, hsp, Option.getD_none]; exact hk
  | alloc f =>
    cases hsp : (allocPage s f).state? with
    | some s2 =>
      simp only [step, hsp, Option.getD_some]
      exact allocPage_keys s f s2 hsp hk
    | none => simp only [step, hsp, Option.getD_none]; exact hk
  | dispose f p =>
    cases hsp : (disposePage s f p).state? with
    | some s2 =>
      simp only [step, hsp, Option.getD_some]
      exact disposePage_keys s f p s2 hsp hk
    | none => simp only [step, hsp, Option.getD_none]; exact hk
  | flush f =>
    cases hsp : (flushFile s f).state? with
    | some s2 =>
      simp only [step, hsp, Option.getD_some]
      exact flushFile_keys s f s2 hsp hk
    | none => simp only [step, hsp, Option.getD_none]; exact hk

theorem run_keys : ∀ (ops : List Op) (s : BufState),
    KeysNodup s.hashTable → KeysNodup (run s ops).hashTable := by
  intro ops
  induction ops with
  | nil => intro s hk; exact hk
  | cons op ops ih =>
    intro s hk
    exact ih (step s op) (step_keys s op hk)

theorem keysNodup_mem_eq : ∀ (l : List (HKey × FrameId)) (k : HKey) (f1 f2 : FrameId),
    KeysNodup l → (k, f1) ∈ l → (k, f2) ∈ l → f1 = f2 := by
  intro l
  induction l with
  | nil => intro k f1 f2 _ h1 _; simp at h1
  | cons e t ih =>
    intro k f1 f2 hnd h1 h2
    rw [KeysNodup, List.map_cons, List.nodup_cons] at hnd
    obtain ⟨hke, hnd⟩ := hnd
    rcases List.mem_cons.mp h1 with h1e | h1t <;> rcases List.mem_cons.mp h2 with h2e | h2t
    · exact (Prod.ext_iff.mp (h1e.trans h2e.symm)).2
    · exfalso
      apply hke
      have hkt : k ∈ t.map Prod.fst := List.mem_map_of_mem Prod.fst h2t
      have he1 : e.1 = k := by rw [← h1e]
      rw [he1]
      exact hkt
    · exfalso
      apply hke
      have hkt : k ∈ t.map Prod.fst := List.mem_map_of_mem Prod.fst h1t
      have he1 : e.1 = k := by rw [← h2e]
      rw [he1]
      exact hkt
    · exact ih k f1 f2 hnd h1t h2t

/-- C5: along every sequence of operations from the initial state, no two
distinct frames are mapped by the same `(file, pageNo)` key of the page
index. -/
theorem pageIndex_unique (bufs : Nat) (ops : List Op) (key : HKey) (f1 f2 : FrameId)
    (h1 : (key, f1) ∈ (run (initState bufs) ops).hashTable)
    (h2 : (key, f2) ∈ (run (initState bufs) ops).hashTable) : f1 = f2 :=
  keysNodup_mem_eq _ key f1 f2
    (run_keys ops (initState bufs) (by simp [initState, KeysNodup])) h1 h2

/-! ### Full characterization of flushFile -/

theorem not_mem_keys_htRemove : ∀ (ht : List (HKey × FrameId)) (k : HKey),
    k ∉ (htRemove ht k).map Prod.fst := by
  intro ht k
  induction ht with
  | nil => simp [htRemove]
  | cons e t ih =>
    by_cases he : e.1 = k
    · rw [htRemove, if_pos he]
      exact ih
    · rw [htRemove, if_neg he]
      simp only [List.map_cons, List.mem_cons]
      rintro (hk | hk)
      · exact he hk.symm
      · exact ih hk

@[simp] theorem poolAt_flushOne (f : FileId) (i : Nat) (s : BufState) (j : Nat) :
    poolAt (flushOne f i s) j = poolAt s j := by
  rw [poolAt, poolAt, flushOne_bufPool]

theorem flushWrites_congr (f : FileId) : ∀ (k i : Nat) (s t : BufState),
    (∀ m, i ≤ m → descAt s m = descAt t m) → s.bufPool = t.bufPool →
    flushWrites f k i s = flushWrites f k i t := by
  intro k
  induction k with
  | zero => intro i s t _ _; rfl
  | succ k ih =>
    intro i s t hd hp
    simp only [flushWrites]
    rw [hd i (le_refl i)]
    have hpp : poolAt s i = poolAt t i := by rw [poolAt, poolAt, hp]
    rw [hpp, ih (i+1) s t (fun m hm => hd m (by omega)) hp]

/-- Success half of `flushFile`'s frame loop: if every frame owned by `f` in
the window is valid and unpinned, the loop returns normally, emits exactly
one write-back per dirty owned frame (in frame order, with the frame's pool
content), clears every owned frame's descriptor, removes every owned frame's
hash entry, and touches no other frame. -/
theorem flushFrom_ok (f : FileId) : ∀ (k i : Nat) (s : BufState),
    (∀ m, i ≤ m → m < i + k → (descAt s m).file = some f →
        (descAt s m).valid = true ∧ (descAt s m).pinCnt = 0) →
    ∃ s', flushFrom f k i s = .ok () s' (flushWrites f k i s) ∧
      s'.bufPool = s.bufPool ∧
      s'.hashTable.Sublist s.hashTable ∧
      (∀ m, m < i ∨ i + k ≤ m ∨ (descAt s m).file ≠ some f →
        descAt s' m = descAt s m) ∧
      (∀ m, i ≤ m → m < i + k → (descAt s m).file = some f →
        descAt s' m = (descAt s m).Clear ∧
        ((some f, (descAt s m).pageNo) ∉ s'.hashTable.map Prod.fst)) := by
  intro k
  induction k with
  | zero =>
    intro i s _
    refine ⟨s, rfl, rfl, List.Sublist.refl _, fun m _ => rfl, fun m h1 h2 _ => ?_⟩
    omega
  | succ k ih =>
    intro i s H
    by_cases hm : (descAt s i).file = some f
    · obtain ⟨hv, hp0⟩ := H i (le_refl i) (by omega) hm
      have hleni : i < s.bufDescTable.length := lt_length_of_file s i f hm
      have hdne : ∀ m, m ≠ i → descAt (flushOne f i s) m = descAt s m :=
        fun m hmm => descAt_flushOne_ne f i s m hmm
      obtain ⟨s', A1, A2, A3, A4, A5⟩ := ih (i+1) (flushOne f i s) (by
        intro m h1 h2 h3
        rw [hdne m (by omega)] at h3 ⊢
        exact H m (by omega) (by omega) h3)
      have htail : flushWrites f k (i+1) (flushOne f i s) = flushWrites f k (i+1) s :=
        flushWrites_congr f k (i+1) _ s
          (fun m hm2 => hdne m (by omega)) (flushOne_bufPool f i s)
      have hw : (if (descAt s i).dirty then [((descAt s i).file, poolAt s i)] else [])
          ++ flushWrites f k (i+1) (flushOne f i s) = flushWrites f (k+1) i s := by
        rw [htail]
        simp only [flushWrites]
        rw [hm]
        by_cases hd : (descAt s i).dirty
        · simp [hd]
        · simp [hd]
      refine ⟨s', ?_, ?_, ?_, ?_, ?_⟩
      · rw [flushFrom_step_go f k i s hm hv hp0, A1]
        simp only [Outcome.addWrites]
        rw [hw]
      · rw [A2, flushOne_bufPool]
      · exact A3.trans (by rw [flushOne_hashTable]; exact htRemove_sublist _ _)
      · intro m hcase
        have hmi : m ≠ i := by
          rcases hcase with h1 | h1 | h1
          · omega
          · omega
          · intro he; rw [he] at h1; exact h1 hm
        rw [← hdne m hmi]
        apply A4
        rcases hcase with h1 | h1 | h1
        · left; omega
        · right; left; omega
        · right; right; rw [hdne m hmi]; exact h1
      · intro m h1 h2 h3
        by_cases hmi : m = i
        · subst hmi
          constructor
          · rw [A4 m (by left; omega), descAt_flushOne_self f m s hleni]
          · intro hmem
            have hkeys := (A3.map Prod.fst).subset hmem
            rw [flushOne_hashTable] at hkeys
            exact not_mem_keys_htRemove s.hashTable (some f, (descAt s m).pageNo) hkeys
        · have h5 := A5 m (by omega) (by omega) (by rw [hdne m hmi]; exact h3)
          rw [hdne m hmi] at h5
          exact h5
    · obtain ⟨s', A1, A2, A3, A4, A5⟩ := ih (i+1) s (by
        intro m h1 h2 h3
        exact H m (by omega) (by omega) h3)
      have hw : flushWrites f (k+1) i s = flushWrites f k (i+1) s := by
        simp only [flushWrites]
        simp [hm]
      refine ⟨s', ?_, A2, A3, ?_, ?_⟩
      · rw [flushFrom_step_skip f k i s hm, A1, hw]
      · intro m hcase
        apply A4
        rcases hcase with h1 | h1 | h1
        · by_cases hmi : m = i
          · right; right; rw [hmi]; exact hm
          · left; omega
        · right; left; omega
        · right; right; exact h1
      · intro m h1 h2 h3
        have hmi : m ≠ i := by
          intro he; rw [he] at h3; exact hm h3
        exact A5 m (by omega) (by omega) h3

/-- Error half of `flushFile`'s frame loop: the first frame owned by `f`
that is invalid or pinned makes the loop throw (`BadBufferException`,
resp. `PagePinnedException`), leaving that frame and every later frame
untouched. -/
theorem flushFrom_err (f : FileId) : ∀ (k i : Nat) (s : BufState) (j : Nat),
    i ≤ j → j < i + k → (descAt s j).file = some f →
    ((descAt s j).valid = false ∨ 0 < (descAt s j).pinCnt) →
    (∀ m, i ≤ m → m < j → (descAt s m).file = some f →
        (descAt s m).valid = true ∧ (descAt s m).pinCnt = 0) →
    ∃ s' ws, flushFrom f k i s
        = .err (if (descAt s j).valid = true then .pagePinned else .badBuffer) s' ws ∧
      (∀ m, j ≤ m → descAt s' m = descAt s m) := by
  intro k
  induction k with
  | zero =>
    intro i s j h1 h2
    omega
  | succ k ih =>
    intro i s j h1 h2 hjm hbad H
    by_cases hij : i = j
    · subst hij
      by_cases hv : (descAt s i).valid = true
      · have hp : 0 < (descAt s i).pinCnt := by
          rcases hbad with hb | hb
          · rw [hv] at hb; exact absurd hb (by simp)
          · exact hb
        refine ⟨s, [], ?_, fun m _ => rfl⟩
        rw [flushFrom_step_pin f k i s hjm hv hp, hv]
        simp
      · rw [Bool.not_eq_true] at hv
        refine ⟨s, [], ?_, fun m _ => rfl⟩
        rw [flushFrom_step_bad f k i s hjm hv, hv]
        simp
    · have hij2 : i < j := by omega
      by_cases hm : (descAt s i).file = some f
      · obtain ⟨hv, hp0⟩ := H i (le_refl i) (by omega) hm
        have hdne : ∀ m, m ≠ i → descAt (flushOne f i s) m = descAt s m :=
          fun m hmm => descAt_flushOne_ne f i s m hmm
        obtain ⟨s', ws, B1, B2⟩ := ih (i+1) (flushOne f i s) j (by omega) (by omega)
          (by rw [hdne j (by omega)]; exact hjm)
          (by rw [hdne j (by omega)]; exact hbad)
          (by
            intro m hm1 hm2 hm3
            rw [hdne m (by omega)] at hm3 ⊢
            exact H m (by omega) (by omega) hm3)
        rw [hdne j (by omega)] at B1
        refine ⟨s', (if (descAt s i).dirty then [((descAt s i).file, poolAt s i)] else [])
          ++ ws, ?_, ?_⟩
        · rw [flushFrom_step_go f k i s hm hv hp0, B1]
          simp only [Outcome.addWrites]
        · intro m hm1
          rw [B2 m hm1, hdne m (by omega)]
      · obtain ⟨s', ws, B1, B2⟩ := ih (i+1) s j (by omega) (by omega) hjm hbad
          (fun m hm1 hm2 hm3 => H m (by omega) (by omega) hm3)
        exact ⟨s', ws, by rw [flushFrom_step_skip f k i s hm]; exact B1, B2⟩

/-- C8: assuming every frame owned by `file` is valid — in the pool's
reachable states ownership entails validity — `flushFile` behaves as
follows.  If every owned frame is also unpinned, it succeeds: each dirty
owned frame is written back exactly once (the write trace is exactly
`flushWrites`), every owned frame's descriptor is cleared and its hash
entry removed, and frames of other owners are untouched.  If some owned
frame is pinned, it fails with `PagePinnedException` at the first such
frame, leaving that frame and all later frames unprocessed. -/
theorem flushFile_spec (s : BufState) (f : FileId)
    (Hvalid : ∀ m, m < s.numBufs → (descAt s m).file = some f →
        (descAt s m).valid = true) :
    ((∀ m, m < s.numBufs → (descAt s m).file = some f → (descAt s m).pinCnt = 0) →
      ∃ s', flushFile s f = .ok () s' (flushWrites f s.numBufs 0 s) ∧
        (∀ m, m < s.numBufs → (descAt s m).file = some f →
          descAt s' m = (descAt s m).Clear ∧
          ((some f, (descAt s m).pageNo) ∉ s'.hashTable.map Prod.fst)) ∧
        (∀ m, (descAt s m).file ≠ some f → descAt s' m = descAt s m)) ∧
    ((∃ j, j < s.numBufs ∧ (descAt s j).file = some f ∧ 0 < (descAt s j).pinCnt) →
      ∃ j s' ws, j < s.numBufs ∧ (descAt s j).file = some f ∧
        0 < (descAt s j).pinCnt ∧
        (∀ m, m < j → (descAt s m).file = some f → (descAt s m).pinCnt = 0) ∧
        flushFile s f = .err .pagePinned s' ws ∧
        (∀ m, j ≤ m → descAt s' m = descAt s m)) := by
  constructor
  · intro Hpin
    obtain ⟨s', A1, _, _, A4, A5⟩ := flushFrom_ok f s.numBufs 0 s (by
      intro m _ h2 h3
      exact ⟨Hvalid m (by omega) h3, Hpin m (by omega) h3⟩)
    refine ⟨s', A1, ?_, ?_⟩
    · intro m h1 h2
      exact A5 m (by omega) (by omega) h2
    · intro m h2
      exact A4 m (Or.inr (Or.inr h2))
  · intro hex0
    haveI hdec : DecidablePred (fun j =>
        j < s.numBufs ∧ (descAt s j).file = some f ∧ 0 < (descAt s j).pinCnt) :=
      fun j => instDecidableAnd
    have hex : ∃ j, j < s.numBufs ∧ (descAt s j).file = some f ∧
        0 < (descAt s j).pinCnt := hex0
    have hP := Nat.find_spec hex
    have hmin : ∀ m, m < Nat.find hex → (descAt s m).file = some f →
        (descAt s m).pinCnt = 0 := by
      intro m hm1 hm2
      have hnp := Nat.find_min hex hm1
      simp only [not_and, not_lt] at hnp
      have : m < s.numBufs := by omega
      have := hnp this hm2
      omega
    obtain ⟨s', ws, B1, B2⟩ := flushFrom_err f s.numBufs 0 s (Nat.find hex)
      (by omega) (by omega) hP.2.1 (Or.inr hP.2.2)
      (fun m _ h2 h3 => ⟨Hvalid m (by omega) h3, hmin m h2 h3⟩)
    rw [Hvalid (Nat.find hex) hP.1 hP.2.1] at B1
    rw [if_pos rfl] at B1
    exact ⟨Nat.find hex, s', ws, hP.1, hP.2.1, hP.2.2, hmin, B1, B2⟩

/-- C10: when `flushFile` reaches a frame whose owning-file field matches
the argument file but whose valid flag is off — every earlier owned frame
being flushable — it throws `BadBufferException` instead of skipping the
frame, and that frame and all later-indexed frames are left untouched. -/
theorem flushFile_invalid_owned_raises (s : BufState) (f : FileId) (j : Nat)
    (hj : j < s.numBufs) (hm : (descAt s j).file = some f)
    (hv : (descAt s j).valid = false)
    (hearlier : ∀ m, m < j → (descAt s m).file = some f →
        (descAt s m).valid = true ∧ (descAt s m).pinCnt = 0) :
    ∃ s' ws, flushFile s f = .err .badBuffer s' ws ∧
      (∀ m, j ≤ m → descAt s' m = descAt s m) := by
  obtain ⟨s', ws, B1, B2⟩ := flushFrom_err f s.numBufs 0 s j (by omega) (by omega) hm
    (Or.inl hv) (fun m _ h2 h3 => hearlier m h2 h3)
  have hif : (if (descAt s j).valid = true then BufError.pagePinned else .badBuffer)
      = .badBuffer := by
    rw [hv]
    simp
  rw [hif] at B1
  exact ⟨s', ws, B1, B2⟩

/-! ### Concrete evaluations and witnesses -/

/-- C1 (code bug): on `cexPool2`, where frame 1 is valid with `pinCnt = 0`,
`allocBuf` nevertheless throws `BufferExceededException` — the refbit pass
over frame 1 makes the lone pinned frame 0 be counted twice toward the
pinned tally, so the failure does not imply that every frame is pinned. -/
theorem allocBuf_premature_exhaustion :
    (descAt cexPool2 1).valid = true ∧ (descAt cexPool2 1).pinCnt = 0 ∧
    allocBuf cexPool2 = .err .bufferExceeded cexPool2After [] := by
  refine ⟨?_, ?_, ?_⟩ <;> decide

/-- C3 (code bug): a fetch miss on `cexAllPinned`, whose every frame is
pinned, is reported as a normal return with no frame (`BufferExceeded` is
swallowed inside `readPage`), and the pool state is not identical
afterwards: the sweep cleared both refbits (pins, dirty bits, owners and
the index are preserved). -/
theorem readPage_exhaustion_swallowed :
    readPage cexAllPinned 5 9 = .ok none cexAllPinnedAfter [] ∧
    cexAllPinnedAfter.hashTable = cexAllPinned.hashTable ∧
    (descAt cexAllPinnedAfter 0).pinCnt = (descAt cexAllPinned 0).pinCnt ∧
    (descAt cexAllPinnedAfter 1).pinCnt = (descAt cexAllPinned 1).pinCnt ∧
    (descAt cexAllPinnedAfter 1).dirty = (descAt cexAllPinned 1).dirty ∧
    (descAt cexAllPinnedAfter 0).refbit = false ∧
    (descAt cexAllPinned 0).refbit = true := by
  refine ⟨?_, ?_, ?_, ?_, ?_, ?_, ?_⟩ <;> decide

theorem readPage_swallows_exhaustion_witness :
    htLookup cexOnePinned.hashTable (some 5, 9) = none ∧
    allocBuf cexOnePinned = .err .bufferExceeded cexOnePinned [] ∧
    readPage cexOnePinned 5 9 = .ok none cexOnePinned [] :=
  ⟨by decide, by decide,
    readPage_swallows_exhaustion cexOnePinned 5 9 cexOnePinned [] (by decide) (by decide)⟩

theorem unPinPage_silent_on_missing_page_witness :
    htLookup (initState 1).hashTable (some 0, 0) = none ∧
    unPinPage (initState 1) 0 0 false = .ok () (initState 1) [] :=
  ⟨by decide, unPinPage_silent_on_missing_page (initState 1) 0 0 false (by decide)⟩

theorem pageIndex_unique_witness :
    ((some 0, 0), 0) ∈ (run (initState 2) [Op.alloc 0]).hashTable ∧ (0 : FrameId) = 0 :=
  ⟨by decide, pageIndex_unique 2 [Op.alloc 0] (some 0, 0) 0 0 (by decide) (by decide)⟩

theorem allocBuf_dirty_victim_writeback_witness :
    ([((some 0 : Option FileId), ({ page_number := 7, data := 42 } : Page))] : List WriteEv)
        = [(some 0, poolAt c6State 0)] ∧
    descAt c6After 0 = (descAt c6State 0).Clear ∧
    (descAt c6After 0).dirty = false ∧ (descAt c6After 0).valid = false ∧
    c6After.hashTable = htRemove c6State.hashTable (some 0, (descAt c6State 0).pageNo) :=
  allocBuf_dirty_victim_writeback c6State 0 c6After
    [((some 0 : Option FileId), ({ page_number := 7, data := 42 } : Page))] 0
    (by decide) (by decide) (by decide) (by decide) (by decide) (by decide)

theorem unPinPage_spec_witness :
    unPinPage cexOnePinned 0 3 true
      = .ok () (setDesc cexOnePinned 0 ((descAt cexOnePinned 0).unpin true)) [] ∧
    unPinPage (setDesc cexOnePinned 0 ((descAt cexOnePinned 0).unpin true)) 0 3 false
      = .err .pageNotPinned (setDesc cexOnePinned 0 ((descAt cexOnePinned 0).unpin true)) [] :=
  ⟨((unPinPage_spec cexOnePinned 0 3 true 0 (by decide)).2.1 0 (by decide)).1,
    (unPinPage_spec cexOnePinned 0 3 true 0 (by decide)).2.2 false (by decide)⟩

theorem flushFile_spec_witness :
    ∃ s', flushFile c8State 1 = .ok () s' (flushWrites 1 c8State.numBufs 0 c8State) ∧
      (∀ m, m < c8State.numBufs → (descAt c8State m).file = some 1 →
        descAt s' m = (descAt c8State m).Clear ∧
        ((some 1, (descAt c8State m).pageNo) ∉ s'.hashTable.map Prod.fst)) ∧
      (∀ m, (descAt c8State m).file ≠ some 1 → descAt s' m = descAt c8State m) :=
  (flushFile_spec c8State 1 (by decide)).1 (by decide)

theorem allocBuf_terminates_witness :
    ∃ s' ws, allocBuf (initState 1) = .ok 0 s' ws :=
  ((allocBuf_terminates (initState 1) (by decide)).2 (bornDesc 0)
    (by decide) (by decide)).1 (Or.inl (by decide))

theorem flushFile_invalid_owned_raises_witness :
    ∃ s' ws, flushFile c10State 1 = .err .badBuffer s' ws ∧
      (∀ m, 0 ≤ m → descAt s' m = descAt c10State m) :=
  flushFile_invalid_owned_raises c10State 1 0 (by decide) (by decide) (by decide)
    (by decide)

end BadgerDB
